import Mathlib

/-
Verification development for the feos_cubics repository: a shallow embedding
of the state-point solver, critical-point solver, phase-equilibrium /
phase-diagram solver, DFT density-profile solver and surface-tension diagram
builder described in spec.md, together with the two surface-tension
correlation functions defined in the notebook
src/examples/saftvrqmie/quantum_fluid_dft.ipynb.

The numerical core (feos-core / feos-dft Rust crates) is not part of the
visible sources; only its notebook call sites and the spec are.  All solver
definitions below are therefore modelled from the spec, as recorded in their
doc comments.  Real-number arithmetic is embedded over the rationals so that
every definition is executable.
-/

/-- Error kinds of the core, modelled from spec section 7. -/
inductive SolverError where
  | NoConvergence : SolverError
  | NoPhysicalRoot : SolverError
  | InvalidBulkState : SolverError
  | NonPhysicalInput : SolverError
deriving DecidableEq, Repr

/-- Phase hint accepted by the state solver, modelled from spec section 4.2. -/
inductive PhaseHint where
  | vapor : PhaseHint
  | liquid : PhaseHint
  | stable : PhaseHint
deriving DecidableEq, Repr

/-- A single-component thermodynamic state: temperature and volume
(spec section 3; mole number fixed at one for the pure-substance API
exercised by the notebooks). -/
structure State where
  temperature : ℚ
  volume : ℚ
deriving DecidableEq, Repr

/-- Molar density of a state, used as DFT bulk boundary condition. -/
def State.density (s : State) : ℚ := 1 / s.volume

/-- Modelled from the spec: the Model contract (spec section 4.1).  The feos
equation-of-state implementations are outside the visible sources, so a Model
is an opaque bundle of the pure functions the solvers consume: pressure and
its first and second volume derivatives, per-component fugacity coefficients,
together with the model-family specific heuristics the spec mentions (the
critical-point initial guess of section 4.3 and the close-packed liquid
volume estimate of section 4.2). -/
structure Model where
  pressure : ℚ → ℚ → ℚ
  dpdV : ℚ → ℚ → ℚ
  d2pdV2 : ℚ → ℚ → ℚ
  fugacity : ℚ → ℚ → List ℚ
  critInit : ℚ × ℚ
  closePackedV : ℚ

/-- Gas constant in J per mol per K, rounded to the precision used by the
rational embedding. -/
def Rgas : ℚ := 8314 / 1000

/-- Ideal-gas volume estimate for one mole, the vapor-branch starting point
of spec section 4.2. -/
def idealGasV (T p : ℚ) : ℚ := Rgas * T / p

/-- Modelled from the spec: the finite volume scan the state solver uses to
look for a bracket containing a sign change in dP/dV (spec section 4.2).
The scan runs from the model's close-packed volume estimate up to the
ideal-gas volume estimate. -/
def volGrid (m : Model) (T p : ℚ) : List ℚ :=
  (List.range 17).map
    (fun (i : ℕ) => m.closePackedV + (idealGasV T p - m.closePackedV) * (i : ℚ) / 16)

/-- True when two consecutive scanned volumes show dP/dV crossing from
negative (liquid-branch-like) to non-negative (spinodal reached), i.e. a
bracket bounding a distinct liquid branch exists. -/
def signChangeLiq (m : Model) (T : ℚ) : List ℚ → Bool
  | v1 :: v2 :: rest =>
      (decide (m.dpdV T v1 < 0) && decide (0 ≤ m.dpdV T v2)) || signChangeLiq m T (v2 :: rest)
  | _ => false

/-- Modelled from the spec: starting volume for the liquid branch, present
exactly when a bracket with a dP/dV sign change consistent with a liquid
root exists on the scan (spec sections 4.2 and 7). -/
def liquidStart (m : Model) (T p : ℚ) : Option ℚ :=
  if signChangeLiq m T (volGrid m T p) then some m.closePackedV else none

/-- Modelled from the spec: starting volume for the vapor branch, present
exactly when the scan reaches a vapor-like region (dP/dV below zero) from
the ideal-gas side. -/
def vaporStart (m : Model) (T p : ℚ) : Option ℚ :=
  if (volGrid m T p).any (fun v => decide (m.dpdV T v < 0)) then some (idealGasV T p) else none

/-- One damped Newton step on volume for the pressure residual
(spec section 4.2): the step is damped when it would cross into the
non-physical region V below zero. -/
def newtonVolumeStep (m : Model) (T ptarget V : ℚ) : ℚ :=
  let Vn := V - (m.pressure T V - ptarget) / m.dpdV T V
  if Vn ≤ 0 then V / 2 else Vn

/-- The k-fold iterate of the damped Newton volume step. -/
def newtonIter (m : Model) (T ptarget : ℚ) : ℕ → ℚ → ℚ
  | 0, V => V
  | n + 1, V => newtonIter m T ptarget n (newtonVolumeStep m T ptarget V)

/-- Modelled from the spec: the Newton iteration on volume of spec
section 4.2, exiting successfully as soon as the pressure residual is below
the tolerance and failing with NoConvergence when the iteration cap is
exhausted without the residual reaching the tolerance. -/
def newtonVolumeLoop (m : Model) (εp T ptarget : ℚ) : ℕ → ℚ → Except SolverError State
  | 0, _ => .error .NoConvergence
  | n + 1, V =>
      if |m.pressure T V - ptarget| < εp then .ok ⟨T, V⟩
      else newtonVolumeLoop m εp T ptarget n (newtonVolumeStep m T ptarget V)

/-- Newton solve for one phase branch: NoPhysicalRoot when no bracket
consistent with the requested branch exists, otherwise the Newton loop from
the branch's starting volume. -/
def branchSolve (m : Model) (εp T ptarget : ℚ) (cap : ℕ) : Option ℚ → Except SolverError State
  | some v0 => newtonVolumeLoop m εp T ptarget cap v0
  | none => .error .NoPhysicalRoot

/-- Head fugacity coefficient of a state; for a pure substance comparing it
compares the molar Gibbs energy of the two roots (spec section 4.2). -/
def fugHead (m : Model) (s : State) : ℚ := (m.fugacity s.temperature s.volume).headD 0

/-- Modelled from the spec: how the stable hint combines the two branch
results, returning the root of lower Gibbs energy and surfacing an error
only when both branches fail (spec section 4.2). -/
def pickStable (m : Model) : Except SolverError State → Except SolverError State → Except SolverError State
  | .ok sv, .ok sl => if fugHead m sl < fugHead m sv then .ok sl else .ok sv
  | .ok sv, .error _ => .ok sv
  | .error _, .ok sl => .ok sl
  | .error e1, .error e2 =>
      if e1 = SolverError.NoConvergence ∨ e2 = SolverError.NoConvergence then
        .error .NoConvergence
      else .error .NoPhysicalRoot

/-- Modelled from the spec: solve_state of spec sections 4.2 and 6 — given a
model, a pressure tolerance, temperature, target pressure, a phase hint and
an iteration cap, return a State whose pressure matches the target within
the tolerance, or surface an error. -/
def solve_state (m : Model) (εp T ptarget : ℚ) (hint : PhaseHint) (cap : ℕ) : Except SolverError State :=
  match hint with
  | .vapor => branchSolve m εp T ptarget cap (vaporStart m T ptarget)
  | .liquid => branchSolve m εp T ptarget cap (liquidStart m T ptarget)
  | .stable =>
      pickStable m (branchSolve m εp T ptarget cap (vaporStart m T ptarget))
        (branchSolve m εp T ptarget cap (liquidStart m T ptarget))

/-- Modelled from the spec: one two-variable Newton step of the critical
point solver (spec section 4.3), using a finite-difference 2x2 Jacobian of
the two residuals dP/dV and d2P/dV2 with respect to T and V, with step
damping when the volume would go non-physical. -/
def critStep (m : Model) (x : ℚ × ℚ) : ℚ × ℚ :=
  let T := x.1
  let V := x.2
  let h : ℚ := 1 / 1000
  let r1 := m.dpdV T V
  let r2 := m.d2pdV2 T V
  let j11 := (m.dpdV (T + h) V - r1) / h
  let j12 := (m.dpdV T (V + h) - r1) / h
  let j21 := (m.d2pdV2 (T + h) V - r2) / h
  let j22 := (m.d2pdV2 T (V + h) - r2) / h
  let det := j11 * j22 - j12 * j21
  let dT := -(j22 * r1 - j12 * r2) / det
  let dV := -(j11 * r2 - j21 * r1) / det
  (T + dT, if V + dV ≤ 0 then V / 2 else V + dV)

/-- Modelled from the spec: the critical point iteration (spec section 4.3),
exiting when both residuals are simultaneously below the tolerance and
failing with NoConvergence after the iteration cap. -/
def criticalLoop (m : Model) (εcrit : ℚ) : ℕ → ℚ × ℚ → Except SolverError State
  | 0, _ => .error .NoConvergence
  | n + 1, x =>
      if |m.dpdV x.1 x.2| < εcrit ∧ |m.d2pdV2 x.1 x.2| < εcrit then .ok ⟨x.1, x.2⟩
      else criticalLoop m εcrit n (critStep m x)

/-- Modelled from the spec: critical_point of spec sections 4.3 and 6
(State.critical_point at the notebook call sites), seeded from the model
family's heuristic initial guess. -/
def critical_point (m : Model) (εcrit : ℚ) (cap : ℕ) : Except SolverError State :=
  criticalLoop m εcrit cap m.critInit

/-- Componentwise closeness of two fugacity vectors: equal length and every
pair within the fugacity tolerance. -/
def fugClose (εf : ℚ) : List ℚ → List ℚ → Bool
  | [], [] => true
  | a :: as, b :: bs => decide (|a - b| < εf) && fugClose εf as bs
  | _, _ => false

/-- Convergence test of the phase equilibrium solver at temperature T:
equal pressure within the pressure tolerance and per-component fugacities
within the fugacity tolerance (spec sections 3 and 4.4). -/
def phaseEqCheck (m : Model) (εp εf T Vv Vl : ℚ) : Bool :=
  decide (|m.pressure T Vv - m.pressure T Vl| < εp) &&
    fugClose εf (m.fugacity T Vv) (m.fugacity T Vl)

/-- Modelled from the spec: one Newton update of the phase equilibrium
solver on the unknown vector (vapor volume, liquid volume) with the
pressure difference and leading fugacity difference as residual vector
(spec section 4.4), using a finite-difference 2x2 Jacobian. -/
def phaseEqStep (m : Model) (T : ℚ) (x : ℚ × ℚ) : ℚ × ℚ :=
  let Vv := x.1
  let Vl := x.2
  let h : ℚ := 1 / 1000
  let f := fun V => (m.fugacity T V).headD 0
  let r1 := m.pressure T Vv - m.pressure T Vl
  let r2 := f Vv - f Vl
  let j11 := m.dpdV T Vv
  let j12 := -m.dpdV T Vl
  let j21 := (f (Vv + h) - f Vv) / h
  let j22 := -((f (Vl + h) - f Vl) / h)
  let det := j11 * j22 - j12 * j21
  let dVv := -(j22 * r1 - j12 * r2) / det
  let dVl := -(j11 * r2 - j21 * r1) / det
  (if Vv + dVv ≤ 0 then Vv / 2 else Vv + dVv, if Vl + dVl ≤ 0 then Vl / 2 else Vl + dVl)

/-- Modelled from the spec: the phase equilibrium iteration at fixed
temperature (spec section 4.4), exiting with the coexisting vapor and
liquid states once the equilibrium check passes and failing with
NoConvergence after the iteration cap. -/
def phaseEqLoop (m : Model) (εp εf T : ℚ) : ℕ → ℚ × ℚ → Except SolverError (State × State)
  | 0, _ => .error .NoConvergence
  | n + 1, x =>
      if phaseEqCheck m εp εf T x.1 x.2 then .ok (⟨T, x.1⟩, ⟨T, x.2⟩)
      else phaseEqLoop m εp εf T n (phaseEqStep m T x)

/-- A phase diagram is an ordered list of coexisting (vapor, liquid) state
pairs (spec section 3). -/
abbrev PhaseDiagram := List (State × State)

/-- The factor by which the continuation starts just below the computed
critical temperature (spec section 4.4). -/
def nearCritFactor : ℚ := 999 / 1000

/-- Temperature grid of the phase diagram: npoints temperatures stepping
from the lower bound up to the top temperature, empty when the bounds are
inverted (spec section 4.4). -/
def tempGrid (Ttop tmin : ℚ) (npoints : ℕ) : List ℚ :=
  if Ttop < tmin then []
  else (List.range npoints).map
    (fun (i : ℕ) => tmin + (Ttop - tmin) * (i : ℚ) / ((npoints : ℚ) - 1))

/-- Modelled from the spec: continuation along the coexistence curve
(spec section 4.4) — each temperature step re-uses the previous converged
volumes as its starting guess, and a step that fails to converge is dropped
from the diagram rather than aborting it. -/
def buildDiagram (m : Model) (εp εf : ℚ) (cap : ℕ) : List ℚ → ℚ × ℚ → PhaseDiagram
  | [], _ => []
  | T :: rest, guess =>
      match phaseEqLoop m εp εf T cap guess with
      | .ok (sv, sl) => (sv, sl) :: buildDiagram m εp εf cap rest (sv.volume, sl.volume)
      | .error _ => buildDiagram m εp εf cap rest guess

/-- Modelled from the spec and the notebook call site
PhaseDiagram.pure(func, min_temperature, npoints): the phase diagram
constructor takes the model, the lower temperature bound and the number of
points; the upper temperature bound is the critical temperature computed
internally by the critical point solver, and the continuation steps
downward from just below it with a near-critical volume perturbation as the
first guess (spec section 4.4). -/
def phase_diagram_pure (m : Model) (εp εf εcrit tmin : ℚ) (npoints capEq capCrit : ℕ) :
    Except SolverError PhaseDiagram :=
  match critical_point m εcrit capCrit with
  | .error e => .error e
  | .ok sc =>
      let Ttop := nearCritFactor * sc.temperature
      let temps := (tempGrid Ttop tmin npoints).reverse
      .ok (buildDiagram m εp εf capEq temps (sc.volume * 6 / 5, sc.volume * 4 / 5)).reverse

/-- Largest vapor-state temperature occurring in a phase diagram. -/
def maxTemp (d : PhaseDiagram) : ℚ := (d.map (fun pr => pr.1.temperature)).foldr max 0

/-- Modelled from the spec: a Functional is a Model extended with
spatially-resolved weighted-density contributions (spec sections 3 and 4.5):
a discrete convolution kernel, the residual chemical potential and the free
energy density as functions of temperature and weighted density, and the
bulk-root validity check the DFT solver performs before iterating. -/
structure Functional extends Model where
  weights : List ℚ
  muRes : ℚ → ℚ → ℚ
  freeEnergyDensity : ℚ → ℚ → ℚ
  validBulk : ℚ → Bool

/-- Rational surrogate for the exponential appearing in the Euler-Lagrange
update: a truncated Taylor series, which agrees with the exponential at the
argument zero. -/
def expQ (x : ℚ) : ℚ := 1 + x + x ^ 2 / 2 + x ^ 3 / 6

/-- Value of a density profile at an extended grid index: the bulk density
to the left of the grid, the stored sample inside, and the right bulk
density beyond the end. -/
def sampleAt (bl br : ℚ) (ρ : List ℚ) (j : ℤ) : ℚ :=
  if j < 0 then bl else ρ.getD j.toNat br

/-- Weighted (convolved) density at grid point j: the profile convolved with
the functional's weight kernel, centred on j, with bulk boundary handling
(spec sections 4.5 and the weighted-density glossary entry). -/
def weightedDensity (f : Functional) (bl br : ℚ) (ρ : List ℚ) (j : ℕ) : ℚ :=
  ((List.range f.weights.length).map
    (fun k => f.weights.getD k 0 * sampleAt bl br ρ ((j : ℤ) + (k : ℤ) - (f.weights.length / 2 : ℕ)))).sum

/-- Weighted density of a uniform bulk phase, computed with the same kernel
as the profile convolution. -/
def bulkWeightedDensity (f : Functional) (b : ℚ) : ℚ :=
  ((List.range f.weights.length).map (fun k => f.weights.getD k 0 * b)).sum

/-- Bulk residual chemical potential entering the Euler-Lagrange relation. -/
def muResBulk (f : Functional) (T b : ℚ) : ℚ := f.muRes T (bulkWeightedDensity f b)

/-- Euler-Lagrange update at one grid point (spec section 4.5): the left
bulk density times the exponential of minus beta times the local excess of
the residual chemical potential over its bulk value. -/
def elUpdate (f : Functional) (T bl br : ℚ) (ρ : List ℚ) (j : ℕ) : ℚ :=
  bl * expQ (-(1 / T) * (f.muRes T (weightedDensity f bl br ρ j) - muResBulk f T bl))

/-- Dirichlet-like boundary enforcement: the profile is clamped to the
supplied bulk densities at the two grid edges every iteration
(spec section 4.5). -/
def clampEdges (bl br : ℚ) (l : List ℚ) : List ℚ :=
  (l.set 0 bl).set (l.length - 1) br

/-- One damped Picard iteration of the DFT solver (spec section 4.5):
Euler-Lagrange update at every grid point, edge clamping, then mixing of
the new and old profiles. -/
def picardStep (f : Functional) (T bl br : ℚ) (ρ : List ℚ) : List ℚ :=
  let fresh := clampEdges bl br ((List.range ρ.length).map (elUpdate f T bl br ρ))
  List.zipWith (fun o x => (o + x) / 2) ρ fresh

/-- Maximum pointwise relative change between two profiles, the convergence
measure of the Picard iteration (spec section 4.5). -/
def maxRelChange (old fresh : List ℚ) : ℚ :=
  (List.zipWith (fun o x => |x - o| / |o|) old fresh).foldr max 0

/-- Modelled from the spec: the fixed-point iteration of the DFT solver
(spec section 4.5), exiting when the maximum pointwise relative change
drops below the tolerance and failing with NoConvergence after the
iteration cap. -/
def dftLoop (f : Functional) (T bl br εdft : ℚ) : ℕ → List ℚ → Except SolverError (List ℚ)
  | 0, _ => .error .NoConvergence
  | n + 1, ρ =>
      let ρ2 := picardStep f T bl br ρ
      if maxRelChange ρ ρ2 < εdft then .ok ρ2 else dftLoop f T bl br εdft n ρ2

/-- Starting profile of the DFT solver: linear interpolation between the
two bulk densities across the grid. -/
def initProfile (bl br : ℚ) (npts : ℕ) : List ℚ :=
  (List.range npts).map (fun (i : ℕ) => bl + (br - bl) * (i : ℚ) / ((npts : ℚ) - 1))

/-- Modelled from the spec: solve_density_profile of spec sections 4.5
and 6 — negative bulk densities are rejected as NonPhysicalInput, bulk
densities failing the bulk-root check are rejected as InvalidBulkState
before iterating, and otherwise the Picard iteration runs from the
interpolated starting profile. -/
def solve_density_profile (f : Functional) (T bl br : ℚ) (npts cap : ℕ) (εdft : ℚ) :
    Except SolverError (List ℚ) :=
  if bl < 0 ∨ br < 0 then .error .NonPhysicalInput
  else if ¬ (f.validBulk bl ∧ f.validBulk br) then .error .InvalidBulkState
  else dftLoop f T bl br εdft cap (initProfile bl br npts)

/-- Surface tension of a converged profile: grid integral of the local
grand-potential density excess over the bulk value (spec section 4.6). -/
def surfaceTensionOf (f : Functional) (T bl br dz : ℚ) (ρ : List ℚ) : ℚ :=
  ((List.range ρ.length).map
    (fun j => dz * (f.freeEnergyDensity T (weightedDensity f bl br ρ j) -
      f.freeEnergyDensity T (bulkWeightedDensity f bl)))).sum

/-- A surface tension diagram: the converged (temperature, surface tension)
entries together with the report of omitted temperatures
(spec sections 3 and 4.6). -/
structure SurfaceTensionDiagram where
  entries : List (ℚ × ℚ)
  omitted : List ℚ
deriving DecidableEq, Repr

/-- Modelled from the spec: surface_tension_diagram of spec sections 4.6
and 6 — for each coexistence point of the phase diagram the DFT solver is
invoked with the two coexisting bulk densities as boundary conditions; a
point whose density profile converges contributes one entry, and a point
where the DFT solver fails is omitted from the diagram and reported,
never aborting the batch. -/
def surface_tension_diagram (f : Functional) (points : PhaseDiagram) (npts : ℕ) (dz : ℚ)
    (cap : ℕ) (εdft : ℚ) : SurfaceTensionDiagram :=
  match points with
  | [] => ⟨[], []⟩
  | pt :: rest =>
      let std := surface_tension_diagram f rest npts dz cap εdft
      match solve_density_profile f pt.1.temperature pt.1.density pt.2.density npts cap εdft with
      | .ok ρ =>
          ⟨(pt.1.temperature, surfaceTensionOf f pt.1.temperature pt.1.density pt.2.density dz ρ) ::
            std.entries, std.omitted⟩
      | .error _ => ⟨std.entries, pt.1.temperature :: std.omitted⟩

/-- Magnitude of the si_units NEWTON unit in SI base units, as consumed by
the notebook's unit conversion expressions. -/
def NEWTON : ℚ := 1

/-- Magnitude of the si_units METER unit in SI base units. -/
def METER : ℚ := 1

/-- Magnitude of the si_units MILLI scaling factor. -/
def MILLI : ℚ := 1 / 1000

/-- Embedding of the notebook function surftens
(src/examples/saftvrqmie/quantum_fluid_dft.ipynb): the Hammer et al. (2023)
surface tension correlation A times (1 - tr) to the power
(param[1] + sum of param[i] times tr to the (i - 1) for i from 2).  numpy
arrays are embedded as rational lists; numpy's elementwise float power is
an external primitive and is passed in as the function qpow.  Indexing
param below position 1 would raise in Python, embedded as the none result.
The trailing factor mirrors the notebook's unit conversion from N/m to
mN/m. -/
def surftens (qpow : ℚ → ℚ → ℚ) (param : List ℚ) (tr : List ℚ) : Option (List ℚ) :=
  if param.length < 2 then none else
  let A := param.getD 0 0
  let exponent0 : List ℚ := tr.map (fun _ => param.getD 1 0)
  let exponent := ((List.range param.length).drop 2).foldl
      (fun acc i => List.zipWith (· + ·) acc (tr.map (fun t => param.getD i 0 * t ^ (i - 1))))
      exponent0
  let sigma := List.zipWith (fun t e => A * qpow (1 - t) e) tr exponent
  some (sigma.map (fun s => s * NEWTON / METER / (MILLI * NEWTON / METER)))

/-- Embedding of the notebook function surftens_mulero2012
(src/examples/saftvrqmie/quantum_fluid_dft.ipynb): the Mulero 2012 surface
tension correlation, summing sigma[i] times (1 - tr) to the power n[i] over
the fluid's coefficient table.  The JSON parameter file is an external
collaborator, so the two coefficient lists of the selected fluid are passed
directly.  The imperative accumulation over the pair (sigma, tr) is
embedded as a fold threading both arrays, which exhibits that the loop
never writes to tr; an n list shorter than the sigma list would raise in
Python, embedded as the none result. -/
def surftens_mulero2012 (qpow : ℚ → ℚ → ℚ) (sigmaCoef nCoef : List ℚ) (tr : List ℚ) :
    Option (List ℚ × List ℚ) :=
  if nCoef.length < sigmaCoef.length then none else
  let st := (List.range sigmaCoef.length).foldl
      (fun (st : List ℚ × List ℚ) i =>
        (List.zipWith (· + ·) st.1
          (st.2.map (fun t => sigmaCoef.getD i 0 * qpow (1 - t) (nCoef.getD i 0))), st.2))
      (tr.map (fun _ => 0), tr)
  some (st.1.map (fun s => s * NEWTON / METER / (MILLI * NEWTON / METER)), st.2)

/-- Decidable equality of solver results, so that concrete solver runs can
be checked by evaluation. -/
instance exceptDecEq {ε α : Type} [DecidableEq ε] [DecidableEq α] : DecidableEq (Except ε α)
  | .error e1, .error e2 =>
      if h : e1 = e2 then isTrue (congrArg Except.error h)
      else isFalse (fun c => h (by injection c))
  | .error _, .ok _ => isFalse (fun c => Except.noConfusion c)
  | .ok _, .error _ => isFalse (fun c => Except.noConfusion c)
  | .ok a, .ok b =>
      if h : a = b then isTrue (congrArg Except.ok h)
      else isFalse (fun c => h (by injection c))

/-- Concrete sample model used to exercise the state and critical point
solvers on explicit inputs: constant pressure five, strictly decreasing in
volume everywhere (no van der Waals loop), with critical initial guess at
temperature thirty and volume two. -/
def mW : Model where
  pressure := fun _ _ => 5
  dpdV := fun _ _ => -1
  d2pdV2 := fun _ _ => 0
  fugacity := fun _ _ => [0]
  critInit := (30, 2)
  closePackedV := 1

/-- Concrete sample model with vanishing pressure, pressure derivatives and
fugacity, so that the critical point and every phase equilibrium point
converge at the initial guess; critical initial guess at temperature
thirty. -/
def mP : Model where
  pressure := fun _ _ => 0
  dpdV := fun _ _ => 0
  d2pdV2 := fun _ _ => 0
  fugacity := fun _ _ => [0]
  critInit := (30, 2)
  closePackedV := 1

/-- Same sample model as mP except that its critical initial guess sits at
temperature forty, so its internally computed critical temperature
differs. -/
def mB : Model where
  pressure := fun _ _ => 0
  dpdV := fun _ _ => 0
  d2pdV2 := fun _ _ => 0
  fugacity := fun _ _ => [0]
  critInit := (40, 2)
  closePackedV := 1

/-- Concrete sample functional used to exercise the DFT solver on explicit
inputs: a two-point averaging kernel and identity residual chemical
potential. -/
def fW : Functional where
  toModel := mP
  weights := [1 / 2, 1 / 2]
  muRes := fun _ w => w
  freeEnergyDensity := fun _ w => w
  validBulk := fun _ => true

theorem newtonVolumeLoop_ok (m : Model) (εp T p : ℚ) :
    ∀ (n : ℕ) (V : ℚ) (s : State), newtonVolumeLoop m εp T p n V = .ok s →
      s.temperature = T ∧ |m.pressure T s.volume - p| < εp := by
  intro n
  induction n with
  | zero => intro V s h; simp [newtonVolumeLoop] at h
  | succ k ih =>
      intro V s h
      rw [newtonVolumeLoop] at h
      by_cases hc : |m.pressure T V - p| < εp
      · rw [if_pos hc] at h
        cases h
        exact ⟨rfl, hc⟩
      · rw [if_neg hc] at h
        exact ih _ s h

theorem newtonVolumeLoop_error (m : Model) (εp T p : ℚ) :
    ∀ (n : ℕ) (V : ℚ) (e : SolverError), newtonVolumeLoop m εp T p n V = .error e →
      e = .NoConvergence := by
  intro n
  induction n with
  | zero =>
      intro V e h
      rw [newtonVolumeLoop] at h
      injection h with h2
      exact h2.symm
  | succ k ih =>
      intro V e h
      rw [newtonVolumeLoop] at h
      by_cases hc : |m.pressure T V - p| < εp
      · rw [if_pos hc] at h; exact absurd h (by simp)
      · rw [if_neg hc] at h; exact ih _ e h

theorem newtonVolumeLoop_noConvergence (m : Model) (εp T p : ℚ) :
    ∀ (n : ℕ) (V : ℚ), newtonVolumeLoop m εp T p n V = .error .NoConvergence ↔
      ∀ k < n, εp ≤ |m.pressure T (newtonIter m T p k V) - p| := by
  intro n
  induction n with
  | zero => intro V; simp [newtonVolumeLoop]
  | succ k ih =>
      intro V
      rw [newtonVolumeLoop]
      by_cases hc : |m.pressure T V - p| < εp
      · rw [if_pos hc]
        constructor
        · intro h; exact absurd h (by simp)
        · intro h
          exact absurd (h 0 (Nat.succ_pos k)) (by simpa [newtonIter] using hc)
      · rw [if_neg hc]
        rw [ih]
        constructor
        · intro h j hj
          match j with
          | 0 => simpa [newtonIter] using le_of_not_lt hc
          | j + 1 =>
              have : newtonIter m T p (j + 1) V =
                  newtonIter m T p j (newtonVolumeStep m T p V) := rfl
              rw [this]
              exact h j (by omega)
        · intro h j hj
          have : newtonIter m T p j (newtonVolumeStep m T p V) =
              newtonIter m T p (j + 1) V := rfl
          rw [this]
          exact h (j + 1) (by omega)

theorem branchSolve_ok (m : Model) (εp T p : ℚ) (cap : ℕ) (o : Option ℚ) (s : State)
    (h : branchSolve m εp T p cap o = .ok s) :
    s.temperature = T ∧ |m.pressure T s.volume - p| < εp := by
  match o with
  | none => simp [branchSolve] at h
  | some v0 => exact newtonVolumeLoop_ok m εp T p cap v0 s h

theorem branchSolve_noPhysicalRoot (m : Model) (εp T p : ℚ) (cap : ℕ) (o : Option ℚ) :
    branchSolve m εp T p cap o = .error .NoPhysicalRoot ↔ o = none := by
  match o with
  | none => simp [branchSolve]
  | some v0 =>
      simp only [branchSolve]
      constructor
      · intro h
        have := newtonVolumeLoop_error m εp T p cap v0 _ h
        simp at this
      · intro h; exact absurd h (by simp)

theorem branchSolve_noConvergence (m : Model) (εp T p : ℚ) (cap : ℕ) (o : Option ℚ) :
    branchSolve m εp T p cap o = .error .NoConvergence ↔
      ∃ v0, o = some v0 ∧ ∀ k < cap, εp ≤ |m.pressure T (newtonIter m T p k v0) - p| := by
  match o with
  | none => simp [branchSolve]
  | some v0 =>
      simp only [branchSolve, Option.some.injEq]
      rw [newtonVolumeLoop_noConvergence]
      constructor
      · intro h; exact ⟨v0, rfl, h⟩
      · rintro ⟨w, rfl, h⟩; exact h

theorem branchSolve_error_cases (m : Model) (εp T p : ℚ) (cap : ℕ) (o : Option ℚ)
    (e : SolverError) (h : branchSolve m εp T p cap o = .error e) :
    e = .NoConvergence ∨ e = .NoPhysicalRoot := by
  match o with
  | none =>
      simp only [branchSolve] at h
      injection h with h2
      exact Or.inr h2.symm
  | some v0 => exact Or.inl (newtonVolumeLoop_error m εp T p cap v0 e h)

theorem pickStable_ok (m : Model) (a b : Except SolverError State) (s : State)
    (h : pickStable m a b = .ok s) : a = .ok s ∨ b = .ok s := by
  match a, b with
  | .ok sv, .ok sl =>
      rw [pickStable] at h
      by_cases hc : fugHead m sl < fugHead m sv
      · rw [if_pos hc] at h; exact Or.inr h
      · rw [if_neg hc] at h; exact Or.inl h
  | .ok sv, .error e => rw [pickStable] at h; exact Or.inl h
  | .error e, .ok sl => rw [pickStable] at h; exact Or.inr h
  | .error e1, .error e2 =>
      rw [pickStable] at h
      by_cases hc : e1 = SolverError.NoConvergence ∨ e2 = SolverError.NoConvergence
      · rw [if_pos hc] at h; exact absurd h (by simp)
      · rw [if_neg hc] at h; exact absurd h (by simp)

theorem pickStable_noPhysicalRoot (m : Model) (a b : Except SolverError State)
    (ha : ∀ e, a = .error e → e = .NoConvergence ∨ e = .NoPhysicalRoot)
    (hb : ∀ e, b = .error e → e = .NoConvergence ∨ e = .NoPhysicalRoot) :
    pickStable m a b = .error .NoPhysicalRoot ↔
      a = .error .NoPhysicalRoot ∧ b = .error .NoPhysicalRoot := by
  match a, b with
  | .ok sv, .ok sl =>
      rw [pickStable]
      by_cases hc : fugHead m sl < fugHead m sv
      · rw [if_pos hc]; simp
      · rw [if_neg hc]; simp
  | .ok sv, .error e => rw [pickStable]; simp
  | .error e, .ok sl => rw [pickStable]; simp
  | .error e1, .error e2 =>
      rw [pickStable]
      by_cases hc : e1 = SolverError.NoConvergence ∨ e2 = SolverError.NoConvergence
      · rw [if_pos hc]
        simp only [Except.error.injEq]
        constructor
        · intro h; simp at h
        · rintro ⟨h1, h2⟩
          rcases hc with hc | hc
          · rw [hc] at h1; simp at h1
          · rw [hc] at h2; simp at h2
      · rw [if_neg hc]
        push_neg at hc
        rcases ha e1 rfl with h1 | h1
        · exact absurd h1 hc.1
        · rcases hb e2 rfl with h2 | h2
          · exact absurd h2 hc.2
          · subst h1; subst h2; simp

theorem signChangeLiq_false (m : Model) (T : ℚ) :
    ∀ (l : List ℚ), (∀ v ∈ l, m.dpdV T v < 0) → signChangeLiq m T l = false := by
  intro l
  induction l with
  | nil => intro _; rfl
  | cons v1 rest ih =>
      intro h
      match rest with
      | [] => rfl
      | v2 :: rest2 =>
          rw [signChangeLiq]
          have h2 : m.dpdV T v2 < 0 := h v2 (by simp)
          have hrec : signChangeLiq m T (v2 :: rest2) = false :=
            ih (fun v hv => h v (List.mem_cons_of_mem _ hv))
          rw [hrec]
          simp [not_le.mpr h2]

/-- C3: for every model, positive temperature and target pressure, a
successful solve_state returns a state at the requested temperature whose
recomputed pressure matches the target within the pressure tolerance. -/
theorem solve_state_pressure_roundtrip (m : Model) (εp T p : ℚ) (hint : PhaseHint) (cap : ℕ)
    (s : State) (_hT : 0 < T) (h : solve_state m εp T p hint cap = .ok s) :
    s.temperature = T ∧ |m.pressure s.temperature s.volume - p| < εp := by
  have key : ∀ o, branchSolve m εp T p cap o = .ok s →
      s.temperature = T ∧ |m.pressure s.temperature s.volume - p| < εp := by
    intro o ho
    obtain ⟨h1, h2⟩ := branchSolve_ok m εp T p cap o s ho
    exact ⟨h1, by rwa [h1]⟩
  match hint with
  | .vapor => rw [solve_state] at h; exact key _ h
  | .liquid => rw [solve_state] at h; exact key _ h
  | .stable =>
      rw [solve_state] at h
      rcases pickStable_ok m _ _ s h with h2 | h2
      · exact key _ h2
      · exact key _ h2

theorem solve_state_pressure_roundtrip_witness :
    (⟨2, 4157 / 1250⟩ : State).temperature = 2 ∧
      |mW.pressure (⟨2, 4157 / 1250⟩ : State).temperature (⟨2, 4157 / 1250⟩ : State).volume - 5| < 1 :=
  solve_state_pressure_roundtrip mW 1 2 5 .vapor 3 ⟨2, 4157 / 1250⟩ (by norm_num)
    (by norm_num [solve_state, branchSolve, vaporStart, volGrid, mW, idealGasV, Rgas,
      List.range_succ, newtonVolumeLoop])

/-- C6: solve_state fails with NoConvergence exactly when the Newton
iteration exhausts its cap with every iterate's pressure residual at or
above the tolerance, fails with NoPhysicalRoot exactly when no bracket
with a dP/dV sign change consistent with the requested phase hint exists
(in particular, a liquid request fails with NoPhysicalRoot whenever dP/dV
is negative over the whole scanned volume range, as above the critical
temperature), and in every failure case the error is surfaced with no
approximate state returned. -/
theorem solve_state_error_taxonomy (m : Model) (εp T p : ℚ) (cap : ℕ) :
    (solve_state m εp T p .vapor cap = .error .NoPhysicalRoot ↔ vaporStart m T p = none) ∧
    (solve_state m εp T p .liquid cap = .error .NoPhysicalRoot ↔ liquidStart m T p = none) ∧
    (solve_state m εp T p .stable cap = .error .NoPhysicalRoot ↔
      vaporStart m T p = none ∧ liquidStart m T p = none) ∧
    (solve_state m εp T p .vapor cap = .error .NoConvergence ↔
      ∃ v0, vaporStart m T p = some v0 ∧
        ∀ k < cap, εp ≤ |m.pressure T (newtonIter m T p k v0) - p|) ∧
    (solve_state m εp T p .liquid cap = .error .NoConvergence ↔
      ∃ v0, liquidStart m T p = some v0 ∧
        ∀ k < cap, εp ≤ |m.pressure T (newtonIter m T p k v0) - p|) ∧
    ((∀ v ∈ volGrid m T p, m.dpdV T v < 0) →
      solve_state m εp T p .liquid cap = .error .NoPhysicalRoot) ∧
    (∀ hint e, solve_state m εp T p hint cap = .error e →
      ∀ s, solve_state m εp T p hint cap ≠ .ok s) := by
  have hliq : solve_state m εp T p .liquid cap = .error .NoPhysicalRoot ↔
      liquidStart m T p = none := branchSolve_noPhysicalRoot m εp T p cap (liquidStart m T p)
  refine ⟨branchSolve_noPhysicalRoot m εp T p cap (vaporStart m T p), hliq, ?_, ?_, ?_, ?_, ?_⟩
  · have hs : solve_state m εp T p .stable cap =
        pickStable m (branchSolve m εp T p cap (vaporStart m T p))
          (branchSolve m εp T p cap (liquidStart m T p)) := rfl
    rw [hs, pickStable_noPhysicalRoot m _ _
      (branchSolve_error_cases m εp T p cap (vaporStart m T p))
      (branchSolve_error_cases m εp T p cap (liquidStart m T p)),
      branchSolve_noPhysicalRoot, branchSolve_noPhysicalRoot]
  · exact branchSolve_noConvergence m εp T p cap (vaporStart m T p)
  · exact branchSolve_noConvergence m εp T p cap (liquidStart m T p)
  · intro h
    have hfalse : signChangeLiq m T (volGrid m T p) = false := signChangeLiq_false m T _ h
    have : liquidStart m T p = none := by rw [liquidStart, hfalse]; simp
    exact hliq.mpr this
  · intro hint e h s
    rw [h]
    simp

theorem solve_state_error_taxonomy_witness :
    solve_state mW 1 50 5 .liquid 3 = .error .NoPhysicalRoot :=
  (solve_state_error_taxonomy mW 1 50 5 3).2.2.2.2.2.1 (by intro v _; norm_num [mW])

theorem criticalLoop_ok (m : Model) (εcrit : ℚ) :
    ∀ (n : ℕ) (x : ℚ × ℚ) (s : State), criticalLoop m εcrit n x = .ok s →
      |m.dpdV s.temperature s.volume| < εcrit ∧ |m.d2pdV2 s.temperature s.volume| < εcrit := by
  intro n
  induction n with
  | zero => intro x s h; simp [criticalLoop] at h
  | succ k ih =>
      intro x s h
      rw [criticalLoop] at h
      by_cases hc : |m.dpdV x.1 x.2| < εcrit ∧ |m.d2pdV2 x.1 x.2| < εcrit
      · rw [if_pos hc] at h
        cases h
        exact hc
      · rw [if_neg hc] at h
        exact ih _ s h

/-- C1: whenever the critical point solver returns successfully, the
returned state satisfies both critical conditions — the first and second
pressure derivatives with respect to volume are each below the critical
tolerance in absolute value. -/
theorem critical_point_residuals (m : Model) (εcrit : ℚ) (cap : ℕ) (s : State)
    (h : critical_point m εcrit cap = .ok s) :
    |m.dpdV s.temperature s.volume| < εcrit ∧ |m.d2pdV2 s.temperature s.volume| < εcrit :=
  criticalLoop_ok m εcrit cap m.critInit s h

theorem critical_point_residuals_witness :
    |mW.dpdV (⟨30, 2⟩ : State).temperature (⟨30, 2⟩ : State).volume| < 2 ∧
      |mW.d2pdV2 (⟨30, 2⟩ : State).temperature (⟨30, 2⟩ : State).volume| < 2 :=
  critical_point_residuals mW 2 3 ⟨30, 2⟩
    (by norm_num [critical_point, criticalLoop, mW])

theorem fugClose_iff (εf : ℚ) :
    ∀ (as bs : List ℚ), fugClose εf as bs = true ↔
      List.Forall₂ (fun a b => |a - b| < εf) as bs := by
  intro as
  induction as with
  | nil =>
      intro bs
      match bs with
      | [] => simp [fugClose]
      | b :: bs2 => simp [fugClose]
  | cons a as2 ih =>
      intro bs
      match bs with
      | [] => simp [fugClose]
      | b :: bs2 =>
          rw [fugClose]
          simp only [Bool.and_eq_true, decide_eq_true_eq, List.forall₂_cons]
          rw [ih]

theorem phaseEqLoop_ok (m : Model) (εp εf T : ℚ) :
    ∀ (n : ℕ) (x : ℚ × ℚ) (sv sl : State), phaseEqLoop m εp εf T n x = .ok (sv, sl) →
      sv.temperature = T ∧ sl.temperature = T ∧
        phaseEqCheck m εp εf T sv.volume sl.volume = true := by
  intro n
  induction n with
  | zero => intro x sv sl h; simp [phaseEqLoop] at h
  | succ k ih =>
      intro x sv sl h
      rw [phaseEqLoop] at h
      by_cases hc : phaseEqCheck m εp εf T x.1 x.2 = true
      · rw [if_pos hc] at h
        cases h
        exact ⟨rfl, rfl, hc⟩
      · rw [if_neg hc] at h
        exact ih _ sv sl h

theorem buildDiagram_mem (m : Model) (εp εf : ℚ) (cap : ℕ) :
    ∀ (temps : List ℚ) (guess : ℚ × ℚ) (pr : State × State),
      pr ∈ buildDiagram m εp εf cap temps guess →
        pr.1.temperature = pr.2.temperature ∧
          phaseEqCheck m εp εf pr.1.temperature pr.1.volume pr.2.volume = true ∧
          pr.1.temperature ∈ temps := by
  intro temps
  induction temps with
  | nil => intro guess pr h; simp [buildDiagram] at h
  | cons T rest ih =>
      intro guess pr h
      rw [buildDiagram] at h
      cases hE : phaseEqLoop m εp εf T cap guess with
      | ok point =>
          rw [hE] at h
          rcases List.mem_cons.mp h with h2 | h2
          · obtain ⟨h3, h4, h5⟩ := phaseEqLoop_ok m εp εf T cap guess point.1 point.2
              (by rw [hE])
            subst h2
            refine ⟨by rw [h3, h4], by rw [h3]; exact h5, by rw [h3]; exact List.mem_cons_self T rest⟩
          · obtain ⟨h3, h4, h5⟩ := ih _ pr h2
            exact ⟨h3, h4, List.mem_cons_of_mem T h5⟩
      | error e =>
          rw [hE] at h
          obtain ⟨h3, h4, h5⟩ := ih _ pr h
          exact ⟨h3, h4, List.mem_cons_of_mem T h5⟩

/-- C2: every (vapor, liquid) pair of any phase diagram the solver produces
has equal temperatures, pressures equal within the pressure tolerance, and
per-component fugacities equal within the fugacity tolerance. -/
theorem phase_diagram_equilibrium_invariant (m : Model) (εp εf εcrit tmin : ℚ)
    (npoints capEq capCrit : ℕ) (dia : PhaseDiagram)
    (hdia : phase_diagram_pure m εp εf εcrit tmin npoints capEq capCrit = .ok dia) :
    ∀ sv sl : State, (sv, sl) ∈ dia →
      sv.temperature = sl.temperature ∧
        |m.pressure sv.temperature sv.volume - m.pressure sl.temperature sl.volume| < εp ∧
        List.Forall₂ (fun a b => |a - b| < εf)
          (m.fugacity sv.temperature sv.volume) (m.fugacity sl.temperature sl.volume) := by
  intro sv sl hmem
  rw [phase_diagram_pure] at hdia
  cases hc : critical_point m εcrit capCrit with
  | error e => rw [hc] at hdia; exact absurd hdia (by simp)
  | ok sc =>
      rw [hc] at hdia
      have hdia2 : dia = (buildDiagram m εp εf capEq
          ((tempGrid (nearCritFactor * sc.temperature) tmin npoints).reverse)
          (sc.volume * 6 / 5, sc.volume * 4 / 5)).reverse := by
        injection hdia with h2
        exact h2.symm
      rw [hdia2, List.mem_reverse] at hmem
      obtain ⟨h3, h4, _⟩ := buildDiagram_mem m εp εf capEq _ _ _ hmem
      rw [phaseEqCheck, Bool.and_eq_true, decide_eq_true_eq, fugClose_iff] at h4
      exact ⟨h3, by rw [h3] at h4 ⊢; exact h4.1, by rw [h3] at h4 ⊢; exact h4.2⟩

theorem phase_diagram_equilibrium_invariant_witness :
    (⟨10, 12 / 5⟩ : State).temperature = (⟨10, 8 / 5⟩ : State).temperature ∧
      |mP.pressure (⟨10, 12 / 5⟩ : State).temperature (⟨10, 12 / 5⟩ : State).volume -
        mP.pressure (⟨10, 8 / 5⟩ : State).temperature (⟨10, 8 / 5⟩ : State).volume| < 1 ∧
      List.Forall₂ (fun a b => |a - b| < 1)
        (mP.fugacity (⟨10, 12 / 5⟩ : State).temperature (⟨10, 12 / 5⟩ : State).volume)
        (mP.fugacity (⟨10, 8 / 5⟩ : State).temperature (⟨10, 8 / 5⟩ : State).volume) :=
  phase_diagram_equilibrium_invariant mP 1 1 1 10 2 2 2
    [(⟨10, 12 / 5⟩, ⟨10, 8 / 5⟩), (⟨2997 / 100, 12 / 5⟩, ⟨2997 / 100, 8 / 5⟩)]
    (by norm_num [phase_diagram_pure, critical_point, criticalLoop, mP, nearCritFactor,
      tempGrid, List.range_succ, buildDiagram, phaseEqLoop, phaseEqCheck, fugClose])
    ⟨10, 12 / 5⟩ ⟨10, 8 / 5⟩ (by simp)

theorem tempGrid_mem_bounds (Ttop tmin : ℚ) (n : ℕ) (T : ℚ) (h : T ∈ tempGrid Ttop tmin n) :
    tmin ≤ T ∧ T ≤ Ttop := by
  rw [tempGrid] at h
  by_cases hlt : Ttop < tmin
  · rw [if_pos hlt] at h; simp at h
  · rw [if_neg hlt] at h
    push_neg at hlt
    obtain ⟨i, hi, rfl⟩ := List.mem_map.mp h
    have hin : i < n := List.mem_range.mp hi
    have hd : 0 ≤ Ttop - tmin := by linarith
    rcases Nat.lt_or_ge n 2 with hn | hn
    · have hi0 : i = 0 := by omega
      have hn1 : n = 1 := by omega
      subst hi0
      subst hn1
      norm_num
      exact hlt
    · have hpos : (0 : ℚ) < (n : ℚ) - 1 := by
        have h2n : (2 : ℚ) ≤ (n : ℚ) := by exact_mod_cast hn
        linarith
      have h1 : 0 ≤ (Ttop - tmin) * (i : ℚ) / ((n : ℚ) - 1) :=
        div_nonneg (mul_nonneg hd (by positivity)) (le_of_lt hpos)
      have hle : (i : ℚ) ≤ (n : ℚ) - 1 := by
        have hcast : (i : ℚ) + 1 ≤ (n : ℚ) := by exact_mod_cast hin
        linarith
      have h2 : (Ttop - tmin) * (i : ℚ) / ((n : ℚ) - 1) ≤ Ttop - tmin := by
        rw [div_le_iff₀ hpos]
        exact mul_le_mul_of_nonneg_left hle hd
      constructor <;> linarith

/-- C8 (amended): the phase diagram constructor takes the model, the lower
temperature bound and the point count; the upper temperature bound is not a
caller argument but is derived internally from the critical point solver,
and every produced temperature lies between the lower bound and the
near-critical fraction of the internally computed critical temperature. -/
theorem phase_diagram_bounds (m : Model) (εp εf εcrit tmin : ℚ) (npoints capEq capCrit : ℕ)
    (dia : PhaseDiagram)
    (h : phase_diagram_pure m εp εf εcrit tmin npoints capEq capCrit = .ok dia) :
    ∃ sc : State, critical_point m εcrit capCrit = .ok sc ∧
      ∀ pr ∈ dia, tmin ≤ pr.1.temperature ∧
        pr.1.temperature ≤ nearCritFactor * sc.temperature := by
  rw [phase_diagram_pure] at h
  cases hc : critical_point m εcrit capCrit with
  | error e => rw [hc] at h; exact absurd h (by simp)
  | ok sc =>
      rw [hc] at h
      refine ⟨sc, rfl, ?_⟩
      intro pr hpr
      have hdia2 : dia = (buildDiagram m εp εf capEq
          ((tempGrid (nearCritFactor * sc.temperature) tmin npoints).reverse)
          (sc.volume * 6 / 5, sc.volume * 4 / 5)).reverse := by
        injection h with h2
        exact h2.symm
      rw [hdia2, List.mem_reverse] at hpr
      obtain ⟨_, _, h5⟩ := buildDiagram_mem m εp εf capEq _ _ _ hpr
      rw [List.mem_reverse] at h5
      exact tempGrid_mem_bounds _ _ _ _ h5

theorem phase_diagram_bounds_witness :
    ∃ sc : State, critical_point mP 1 2 = .ok sc ∧
      ∀ pr ∈ ([(⟨10, 12 / 5⟩, ⟨10, 8 / 5⟩),
          (⟨2997 / 100, 12 / 5⟩, ⟨2997 / 100, 8 / 5⟩)] : PhaseDiagram),
        (10 : ℚ) ≤ pr.1.temperature ∧ pr.1.temperature ≤ nearCritFactor * sc.temperature :=
  phase_diagram_bounds mP 1 1 1 10 2 2 2 _
    (by norm_num [phase_diagram_pure, critical_point, criticalLoop, mP, nearCritFactor,
      tempGrid, List.range_succ, buildDiagram, phaseEqLoop, phaseEqCheck, fugClose])

/-- C8 (counterexample): with every caller-supplied argument identical —
in particular the same lower temperature bound and point count, and no
upper temperature bound among the arguments at all — two models yield phase
diagrams with different top temperatures, each equal to the near-critical
fraction of that model's internally computed critical temperature; hence
the caller does not supply an upper temperature bound T_max. -/
theorem phase_diagram_tmax_counterexample :
    (phase_diagram_pure mP 1 1 1 10 2 2 2).map maxTemp = .ok (2997 / 100) ∧
    (phase_diagram_pure mB 1 1 1 10 2 2 2).map maxTemp = .ok (999 / 25) ∧
    critical_point mP 1 2 = .ok ⟨30, 2⟩ ∧
    critical_point mB 1 2 = .ok ⟨40, 2⟩ ∧
    (2997 / 100 : ℚ) = nearCritFactor * 30 ∧
    (999 / 25 : ℚ) = nearCritFactor * 40 ∧
    (2997 / 100 : ℚ) ≠ 999 / 25 := by
  refine ⟨?_, ?_, ?_, ?_, by norm_num [nearCritFactor], by norm_num [nearCritFactor],
    by norm_num⟩
  · norm_num [phase_diagram_pure, critical_point, criticalLoop, mP, nearCritFactor,
      tempGrid, List.range_succ, buildDiagram, phaseEqLoop, phaseEqCheck, fugClose,
      maxTemp, max_def, Except.map]
  · norm_num [phase_diagram_pure, critical_point, criticalLoop, mB, nearCritFactor,
      tempGrid, List.range_succ, buildDiagram, phaseEqLoop, phaseEqCheck, fugClose,
      maxTemp, max_def, Except.map]
  · norm_num [critical_point, criticalLoop, mP]
  · norm_num [critical_point, criticalLoop, mB]

/-- C5: the surface tension diagram never aborts on a failed point — it
contains exactly one entry per phase diagram point whose density profile
converged, and the temperature of every point where the DFT solver failed
is reported in the omitted list; entries and omissions together account for
every point of the phase diagram. -/
theorem surface_tension_diagram_partitions (f : Functional) (points : PhaseDiagram)
    (npts : ℕ) (dz : ℚ) (cap : ℕ) (εdft : ℚ) :
    (surface_tension_diagram f points npts dz cap εdft).entries =
      points.filterMap (fun pt =>
        (solve_density_profile f pt.1.temperature pt.1.density pt.2.density npts cap
          εdft).toOption.map
          (fun ρ => (pt.1.temperature,
            surfaceTensionOf f pt.1.temperature pt.1.density pt.2.density dz ρ))) ∧
    (surface_tension_diagram f points npts dz cap εdft).omitted =
      (points.filter (fun pt =>
        !(solve_density_profile f pt.1.temperature pt.1.density pt.2.density npts cap
          εdft).isOk)).map (fun pt => pt.1.temperature) ∧
    (surface_tension_diagram f points npts dz cap εdft).entries.length +
      (surface_tension_diagram f points npts dz cap εdft).omitted.length = points.length := by
  induction points with
  | nil => exact ⟨rfl, rfl, rfl⟩
  | cons pt rest ih =>
      obtain ⟨ih1, ih2, ih3⟩ := ih
      rw [surface_tension_diagram]
      cases hE : solve_density_profile f pt.1.temperature pt.1.density pt.2.density npts cap
          εdft with
      | ok ρ =>
          refine ⟨?_, ?_, ?_⟩
          · simp [hE, ih1, Except.toOption]
          · simp [hE, ih2, Except.isOk, Except.toBool, List.filter_cons]
          · simp [hE, ih3, Except.isOk]
            omega
      | error e =>
          refine ⟨?_, ?_, ?_⟩
          · simp [hE, ih1, Except.toOption]
          · simp [hE, ih2, Except.isOk, Except.toBool, List.filter_cons]
          · simp [hE, ih3, Except.isOk]
            omega

theorem getD_replicate (b : ℚ) : ∀ (n i : ℕ), (List.replicate n b).getD i b = b := by
  intro n
  induction n with
  | zero => intro i; rfl
  | succ k ih =>
      intro i
      rw [List.replicate_succ]
      match i with
      | 0 => rfl
      | j + 1 => exact ih j

theorem sampleAt_replicate (b : ℚ) (n : ℕ) (j : ℤ) :
    sampleAt b b (List.replicate n b) j = b := by
  rw [sampleAt]
  by_cases hj : j < 0
  · rw [if_pos hj]
  · rw [if_neg hj]
    exact getD_replicate b n j.toNat

theorem weightedDensity_replicate (f : Functional) (b : ℚ) (n : ℕ) (j : ℕ) :
    weightedDensity f b b (List.replicate n b) j = bulkWeightedDensity f b := by
  rw [weightedDensity, bulkWeightedDensity]
  congr 1
  apply List.map_congr_left
  intro k _
  rw [sampleAt_replicate]

theorem expQ_zero : expQ 0 = 1 := by norm_num [expQ]

theorem elUpdate_replicate (f : Functional) (T b : ℚ) (n : ℕ) (j : ℕ) :
    elUpdate f T b b (List.replicate n b) j = b := by
  rw [elUpdate, weightedDensity_replicate, muResBulk]
  simp [expQ_zero]

theorem set_replicate (b : ℚ) : ∀ (n i : ℕ), (List.replicate n b).set i b = List.replicate n b := by
  intro n
  induction n with
  | zero => intro i; rfl
  | succ k ih =>
      intro i
      rw [List.replicate_succ]
      match i with
      | 0 => rfl
      | j + 1 => exact congrArg (List.cons b) (ih j)

theorem clampEdges_replicate (b : ℚ) (n : ℕ) :
    clampEdges b b (List.replicate n b) = List.replicate n b := by
  rw [clampEdges, set_replicate, set_replicate]

theorem zipWith_avg_replicate (b : ℚ) (n : ℕ) :
    List.zipWith (fun o x => (o + x) / 2) (List.replicate n b) (List.replicate n b) =
      List.replicate n b := by
  induction n with
  | zero => rfl
  | succ k ih =>
      rw [List.replicate_succ]
      have hb : (b + b) / 2 = b := by ring
      simp [hb, ih]

theorem picardStep_replicate (f : Functional) (T b : ℚ) (n : ℕ) :
    picardStep f T b b (List.replicate n b) = List.replicate n b := by
  rw [picardStep]
  have h1 : (List.range (List.replicate n b).length).map (elUpdate f T b b (List.replicate n b)) =
      List.replicate n b := by
    rw [List.length_replicate]
    trans (List.range n).map (fun (_ : ℕ) => b)
    · exact List.map_congr_left (fun j _ => elUpdate_replicate f T b n j)
    · simp [List.map_const']
  rw [h1, clampEdges_replicate, zipWith_avg_replicate]

theorem zipWith_rel_replicate (b : ℚ) (n : ℕ) :
    List.zipWith (fun o x => |x - o| / |o|) (List.replicate n b) (List.replicate n b) =
      List.replicate n (0 : ℚ) := by
  induction n with
  | zero => rfl
  | succ k ih => simp [List.replicate_succ, ih, sub_self]

theorem foldr_max_replicate (n : ℕ) : (List.replicate n (0 : ℚ)).foldr max 0 = 0 := by
  induction n with
  | zero => rfl
  | succ k ih => simp [List.replicate_succ, ih]

theorem maxRelChange_replicate (b : ℚ) (n : ℕ) :
    maxRelChange (List.replicate n b) (List.replicate n b) = 0 := by
  rw [maxRelChange, zipWith_rel_replicate, foldr_max_replicate]

theorem dftLoop_replicate (f : Functional) (T b εdft : ℚ) (n : ℕ) :
    ∀ (fuel : ℕ) (ρ : List ℚ), dftLoop f T b b εdft fuel (List.replicate n b) = .ok ρ →
      ρ = List.replicate n b ∧ 0 < εdft := by
  intro fuel
  induction fuel with
  | zero => intro ρ h; simp [dftLoop] at h
  | succ k ih =>
      intro ρ h
      rw [dftLoop] at h
      simp only [picardStep_replicate, maxRelChange_replicate] at h
      by_cases hc : (0 : ℚ) < εdft
      · rw [if_pos hc] at h
        injection h with h2
        exact ⟨h2.symm, hc⟩
      · rw [if_neg hc] at h
        exact ih ρ h

theorem initProfile_same (b : ℚ) (n : ℕ) : initProfile b b n = List.replicate n b := by
  rw [initProfile]
  trans (List.range n).map (fun (_ : ℕ) => b)
  · apply List.map_congr_left
    intro i _
    simp
  · simp [List.map_const']

/-- C7: when the DFT solver is called with equal left and right bulk
densities and converges, the returned density profile is uniform — equal to
that bulk density at every grid point, in particular within the DFT
tolerance everywhere, with no spurious interface. -/
theorem dft_equal_bulks_uniform (f : Functional) (T bl : ℚ) (npts cap : ℕ) (εdft : ℚ)
    (ρ : List ℚ) (h : solve_density_profile f T bl bl npts cap εdft = .ok ρ) :
    ρ = List.replicate npts bl ∧ ∀ x ∈ ρ, |x - bl| < εdft := by
  rw [solve_density_profile] at h
  by_cases h1 : bl < 0 ∨ bl < 0
  · rw [if_pos h1] at h
    exact absurd h (by simp)
  · rw [if_neg h1] at h
    by_cases h2 : ¬ (f.validBulk bl ∧ f.validBulk bl)
    · rw [if_pos h2] at h
      exact absurd h (by simp)
    · rw [if_neg h2] at h
      rw [initProfile_same] at h
      obtain ⟨hρ, hε⟩ := dftLoop_replicate f T bl εdft npts cap ρ h
      refine ⟨hρ, ?_⟩
      intro x hx
      rw [hρ] at hx
      rw [List.eq_of_mem_replicate hx]
      simpa using hε

theorem dft_equal_bulks_uniform_witness :
    ([3, 3, 3] : List ℚ) = List.replicate 3 (3 : ℚ) ∧
      ∀ x ∈ ([3, 3, 3] : List ℚ), |x - 3| < 1 / 10 :=
  dft_equal_bulks_uniform fW 2 3 3 2 (1 / 10) [3, 3, 3]
    (by norm_num [solve_density_profile, fW, mP, dftLoop, initProfile, List.range_succ,
      picardStep, clampEdges, elUpdate, weightedDensity, bulkWeightedDensity, muResBulk,
      sampleAt, expQ, maxRelChange, max_def])

theorem foldl_zip_map (tr : List ℚ) (g : ℕ → ℚ → ℚ) :
    ∀ (is : List ℕ) (c : ℚ → ℚ),
      is.foldl (fun acc i => List.zipWith (· + ·) acc (tr.map (fun t => g i t)))
        (tr.map (fun t => c t)) =
      tr.map (fun t => c t + (is.map (fun i => g i t)).sum) := by
  intro is
  induction is with
  | nil => intro c; simp
  | cons i is2 ih =>
      intro c
      rw [List.foldl_cons]
      have h1 : List.zipWith (· + ·) (tr.map (fun t => c t)) (tr.map (fun t => g i t)) =
          tr.map (fun t => c t + g i t) := by
        rw [List.zipWith_map (· + ·) (fun t => c t) (fun t => g i t) tr tr, List.zipWith_same]
      rw [h1, ih]
      apply List.map_congr_left
      intro t _
      simp [add_assoc]

/-- C9: surftens computes, elementwise over the reduced temperature array,
one thousand times param[0] times (1 - tr) raised to the exponent
param[1] plus the sum over i from 2 of param[i] times tr to the (i - 1);
in particular a three-entry parameter vector yields the linear exponent
param[1] + param[2] * tr, and a tr squared term appears exactly from the
fourth entry on. -/
theorem surftens_closed_form :
    (∀ (qpow : ℚ → ℚ → ℚ) (param tr : List ℚ), 2 ≤ param.length →
      surftens qpow param tr = some (tr.map (fun t =>
        1000 * param.getD 0 0 * qpow (1 - t)
          (param.getD 1 0 +
            (((List.range param.length).drop 2).map
              (fun i => param.getD i 0 * t ^ (i - 1))).sum)))) ∧
    (∀ (qpow : ℚ → ℚ → ℚ) (a b c : ℚ) (tr : List ℚ),
      surftens qpow [a, b, c] tr =
        some (tr.map (fun t => 1000 * a * qpow (1 - t) (b + c * t)))) ∧
    (∀ (qpow : ℚ → ℚ → ℚ) (a b c d : ℚ) (tr : List ℚ),
      surftens qpow [a, b, c, d] tr =
        some (tr.map (fun t => 1000 * a * qpow (1 - t) (b + c * t + d * t ^ 2)))) := by
  have main : ∀ (qpow : ℚ → ℚ → ℚ) (param tr : List ℚ), 2 ≤ param.length →
      surftens qpow param tr = some (tr.map (fun t =>
        1000 * param.getD 0 0 * qpow (1 - t)
          (param.getD 1 0 +
            (((List.range param.length).drop 2).map
              (fun i => param.getD i 0 * t ^ (i - 1))).sum))) := by
    intro qpow param tr hlen
    have hguard : ¬ param.length < 2 := by omega
    rw [surftens, if_neg hguard]
    simp only []
    rw [foldl_zip_map tr (fun i t => param.getD i 0 * t ^ (i - 1))
      ((List.range param.length).drop 2) (fun _ => param.getD 1 0)]
    have hzip : List.zipWith (fun t e => param.getD 0 0 * qpow (1 - t) e) tr
        (tr.map (fun t => param.getD 1 0 +
          (((List.range param.length).drop 2).map
            (fun i => param.getD i 0 * t ^ (i - 1))).sum)) =
        tr.map (fun t => param.getD 0 0 * qpow (1 - t)
          (param.getD 1 0 +
            (((List.range param.length).drop 2).map
              (fun i => param.getD i 0 * t ^ (i - 1))).sum)) := by
      rw [List.zipWith_map_right, List.zipWith_same]
    rw [hzip, List.map_map]
    apply congrArg
    apply List.map_congr_left
    intro t _
    simp only [Function.comp_apply, NEWTON, METER, MILLI]
    norm_num
    ring
  refine ⟨main, ?_, ?_⟩
  · intro qpow a b c tr
    rw [main qpow [a, b, c] tr (by norm_num)]
    apply congrArg
    apply List.map_congr_left
    intro t _
    have hr : (List.range ([a, b, c] : List ℚ).length).drop 2 = [2] := rfl
    rw [hr]
    have harg : ([a, b, c] : List ℚ).getD 1 0 +
        (([2] : List ℕ).map (fun i => ([a, b, c] : List ℚ).getD i 0 * t ^ (i - 1))).sum =
        b + c * t := by
      norm_num [List.getD]
    rw [harg]
    rfl
  · intro qpow a b c d tr
    rw [main qpow [a, b, c, d] tr (by norm_num)]
    apply congrArg
    apply List.map_congr_left
    intro t _
    have hr : (List.range ([a, b, c, d] : List ℚ).length).drop 2 = [2, 3] := rfl
    rw [hr]
    have harg : ([a, b, c, d] : List ℚ).getD 1 0 +
        (([2, 3] : List ℕ).map
          (fun i => ([a, b, c, d] : List ℚ).getD i 0 * t ^ (i - 1))).sum =
        b + c * t + d * t ^ 2 := by
      norm_num [List.getD]
      ring
    rw [harg]
    rfl

theorem surftens_closed_form_witness :
    surftens (fun a b => a + b) [1, 2] [0, 1] =
      some (([0, 1] : List ℚ).map (fun t =>
        1000 * ([1, 2] : List ℚ).getD 0 0 * ((1 - t) + (([1, 2] : List ℚ).getD 1 0 +
          (((List.range ([1, 2] : List ℚ).length).drop 2).map
            (fun i => ([1, 2] : List ℚ).getD i 0 * t ^ (i - 1))).sum)))) :=
  surftens_closed_form.1 (fun a b => a + b) [1, 2] [0, 1] (by norm_num)

theorem foldl_pair (tr : List ℚ) (g : ℕ → ℚ → ℚ) :
    ∀ (is : List ℕ) (acc : List ℚ),
      is.foldl (fun (st : List ℚ × List ℚ) i =>
        (List.zipWith (· + ·) st.1 (st.2.map (fun t => g i t)), st.2)) (acc, tr) =
      (is.foldl (fun a i => List.zipWith (· + ·) a (tr.map (fun t => g i t))) acc, tr) := by
  intro is
  induction is with
  | nil => intro acc; rfl
  | cons i is2 ih =>
      intro acc
      rw [List.foldl_cons, List.foldl_cons]
      exact ih _

/-- C10: surftens_mulero2012 returns, elementwise over the reduced
temperature array, one thousand times the sum over the fluid's coefficient
table of sigma[i] times (1 - tr) raised to n[i]; the result has the same
shape as the input array and the input array itself is returned unmodified
by the accumulation loop. -/
theorem surftens_mulero2012_closed_form :
    ∀ (qpow : ℚ → ℚ → ℚ) (sigmaCoef nCoef tr : List ℚ), sigmaCoef.length = nCoef.length →
      surftens_mulero2012 qpow sigmaCoef nCoef tr =
        some (tr.map (fun t => 1000 *
          ((List.range sigmaCoef.length).map
            (fun i => sigmaCoef.getD i 0 * qpow (1 - t) (nCoef.getD i 0))).sum), tr) ∧
      ∀ res trOut, surftens_mulero2012 qpow sigmaCoef nCoef tr = some (res, trOut) →
        res.length = tr.length ∧ trOut = tr := by
  intro qpow sigmaCoef nCoef tr hlen
  have hguard : ¬ nCoef.length < sigmaCoef.length := by omega
  have hmain : surftens_mulero2012 qpow sigmaCoef nCoef tr =
      some (tr.map (fun t => 1000 *
        ((List.range sigmaCoef.length).map
          (fun i => sigmaCoef.getD i 0 * qpow (1 - t) (nCoef.getD i 0))).sum), tr) := by
    rw [surftens_mulero2012, if_neg hguard]
    simp only []
    rw [foldl_pair tr (fun i t => sigmaCoef.getD i 0 * qpow (1 - t) (nCoef.getD i 0))
      (List.range sigmaCoef.length) (tr.map (fun _ => 0))]
    rw [foldl_zip_map tr (fun i t => sigmaCoef.getD i 0 * qpow (1 - t) (nCoef.getD i 0))
      (List.range sigmaCoef.length) (fun _ => 0)]
    rw [List.map_map]
    apply congrArg
    have : ∀ t ∈ tr, (Function.comp (fun s => s * NEWTON / METER / (MILLI * NEWTON / METER))
        (fun t => 0 + ((List.range sigmaCoef.length).map
          (fun i => sigmaCoef.getD i 0 * qpow (1 - t) (nCoef.getD i 0))).sum)) t =
        1000 * ((List.range sigmaCoef.length).map
          (fun i => sigmaCoef.getD i 0 * qpow (1 - t) (nCoef.getD i 0))).sum := by
      intro t _
      simp only [Function.comp_apply, NEWTON, METER, MILLI]
      norm_num
      ring
    exact congrArg (fun z => (z, tr)) (List.map_congr_left this)
  refine ⟨hmain, ?_⟩
  intro res trOut heq
  rw [hmain] at heq
  injection heq with h2
  rw [Prod.mk.injEq] at h2
  obtain ⟨h3, h4⟩ := h2
  constructor
  · rw [← h3, List.length_map]
  · exact h4.symm

theorem surftens_mulero2012_closed_form_witness :
    (surftens_mulero2012 (fun a b => a * b) [1, 2] [3, 4] [0, 1] =
      some (([0, 1] : List ℚ).map (fun t => 1000 *
        ((List.range ([1, 2] : List ℚ).length).map
          (fun i => ([1, 2] : List ℚ).getD i 0 *
            ((1 - t) * ([3, 4] : List ℚ).getD i 0))).sum), [0, 1])) ∧
      ∀ res trOut,
        surftens_mulero2012 (fun a b => a * b) [1, 2] [3, 4] [0, 1] = some (res, trOut) →
          res.length = ([0, 1] : List ℚ).length ∧ trOut = [0, 1] :=
  surftens_mulero2012_closed_form (fun a b => a * b) [1, 2] [3, 4] [0, 1] (by norm_num)
